import Mathlib

/-!
Verification development for chaospy/dist/copulas.py.

The file shallow-embeds the Archimedean copula engine (class `Archimedia`
and its five family subclasses), the generic `Copula` wrapper, and the
`nataf` backend of that module into Lean over the real numbers, and proves
or refutes the frozen behavioural claims about them.

Conventions of the embedding:
  - numpy arrays of batch size one become `List ℝ` over the coordinate
    axis; elementwise `np.where` becomes `if`;
  - machine floats become real numbers; real division by zero yields 0 in
    Lean, which is noted wherever the source can divide by zero;
  - a failing Python `assert` becomes the value `none` of an `Option`.
-/

noncomputable section

/-- The two methods a subclass of `Archimedia` supplies: the generator
`gen(x, th)` and its pseudo-inverse `igen(x, th)`. -/
structure ArchGen where
  gen : ℝ → ℝ → ℝ
  igen : ℝ → ℝ → ℝ

/-- `1 - 2*(x > .5)`: the perturbation direction used by `_diff` (line 178)
and `_pdf` (line 157); `+1` for `x ≤ 1/2`, `-1` for `x > 1/2`. -/
def npSign (t : ℝ) : ℝ := 1 - 2 * (if 1 / 2 < t then (1 : ℝ) else 0)

/-- `foo = lambda y: self.igen(np.sum(self.gen(y, th), 0), th)` (line 175). -/
def fooSum (g : ArchGen) (th : ℝ) (y : List ℝ) : ℝ :=
  g.igen ((y.map (fun t => g.gen t th)).sum) th

/-- `sum(I)` for an index tuple of zeros and ones (line 183). -/
def popcount : List Bool → ℕ
  | [] => 0
  | b :: r => (if b then 1 else 0) + popcount r

/-- The tuples enumerated by `np.ndindex((2,)*k)` (line 179), as lists of
`k` booleans. -/
def bitLists : ℕ → List (List Bool)
  | 0 => [[]]
  | n + 1 => (bitLists n).map (List.cons false) ++ (bitLists n).map (List.cons true)

/-- `eps_ = np.array(I)*eps; x_ = (x.T + sign*eps_).T` (lines 181-182):
coordinate `j` is shifted by `npSign x_j * eps` when the bit `I_j` is set
and left alone otherwise. -/
def perturb (eps : ℝ) (x : List ℝ) (I : List Bool) : List ℝ :=
  x.zipWith (fun t b => t + npSign t * (if b then eps else 0)) I

/-- `x_[-1] = 1` (line 185): replace the last entry. -/
def setLast (l : List ℝ) (v : ℝ) : List ℝ := l.set (l.length - 1) v

/-- `out1` of `Archimedia._diff` (line 183): the stencil accumulated with
the last coordinate left at `x[-1]`.  The index tuple produced by
`np.ndindex((2,)*(len(x)-1)+(1,))` always carries a zero in its last
position, embedded here as the padding `I ++ [false]`. -/
def diffNum (g : ArchGen) (th eps : ℝ) (x : List ℝ) : ℝ :=
  ((bitLists (x.length - 1)).map (fun I =>
    (-1 : ℝ) ^ popcount I * fooSum g th (perturb eps x (I ++ [false])))).sum

/-- `out2` of `Archimedia._diff` (line 186): the same stencil with the last
coordinate replaced by 1. -/
def diffDen (g : ArchGen) (th eps : ℝ) (x : List ℝ) : ℝ :=
  ((bitLists (x.length - 1)).map (fun I =>
    (-1 : ℝ) ^ popcount I * fooSum g th (setLast (perturb eps x (I ++ [false])) 1))).sum

/-- `Archimedia._diff` (lines 168-189): `out = out1/out2`, the quotient
taken unconditionally.  When `out2 = 0` numpy produces inf or nan; the
real-valued embedding yields the junk value 0 of division by zero. -/
def Archimedia.diff (g : ArchGen) (th eps : ℝ) (x : List ℝ) : ℝ :=
  diffNum g th eps x / diffDen g th eps x

/-- `Archimedia._cdf` (lines 146-153).  `out[0] = x[0]`; for every later
coordinate the statement `out[i][x[i]==1] = 1` on line 150 is immediately
overwritten by the unconditional assignment `out[i] = self._diff(...)` on
line 151 (a dead store), so the net effect per coordinate is the plain
Diff value. -/
def Archimedia.cdf (g : ArchGen) (th eps : ℝ) (x : List ℝ) : List ℝ :=
  (List.range x.length).map (fun i =>
    if i = 0 then x.getD 0 0 else Archimedia.diff g th eps (x.take (i + 1)))

/-- One pass of the loop body of `Archimedia._pdf` (lines 158-163) at
index `i`, threading the mutated coordinate vector:
`x[i] += eps*sign[i]; out[i] = diff(...); x[i] -= eps*sign[i];
out[i] -= diff(...); out[i] /= eps`. -/
def pdfStepAt (g : ArchGen) (th eps s : ℝ) (i : ℕ) : List ℝ × List ℝ → List ℝ × List ℝ
  | (x, out) =>
    let xA := x.set i (x.getD i 0 + eps * s)
    let oA := Archimedia.diff g th eps (xA.take (i + 1))
    let xB := xA.set i (xA.getD i 0 - eps * s)
    let oB := Archimedia.diff g th eps (xB.take (i + 1))
    (xB, out.set i ((oA - oB) / eps))

/-- The loop `for i in xrange(1, len(x))` of `Archimedia._pdf`. -/
def pdfSteps (g : ArchGen) (th eps : ℝ) (sign : List ℝ) :
    List ℕ → List ℝ × List ℝ → List ℝ × List ℝ
  | [], st => st
  | i :: rest, st => pdfSteps g th eps sign rest (pdfStepAt g th eps (sign.getD i 0) i st)

/-- `Archimedia._pdf` (lines 155-166): `out = np.ones(x.shape)`,
`sign = 1-2*(x>.5)` computed once from the incoming vector, the loop over
indices 1..len-1, and the final `out = abs(out)`. -/
def Archimedia.pdf (g : ArchGen) (th eps : ℝ) (x : List ℝ) : List ℝ :=
  (pdfSteps g th eps (x.map npSign) (List.range' 1 (x.length - 1))
    (x, List.replicate x.length 1)).2.map (fun t => |t|)

/-- The per-coordinate solver state of `Archimedia._ppf` (lines 112-115):
bracket `lo, up`, the residuals `flo, fup` recorded at its ends, and the
current iterate `q[i]`. -/
structure SolverState where
  lo : ℝ
  up : ℝ
  flo : ℝ
  fup : ℝ
  q : ℝ

/-- One iteration of the solver loop of `Archimedia._ppf` (lines 117-141)
at batch size one.  `F` is the map from the trial value of the current
coordinate to `self._diff(q[:i+1], th, eps)`.  The sentinel substitution
`dfq = np.where(dfq==0, np.inf, dfq)` (line 121) makes the later quotient
`fq/dfq` zero exactly when the raw derivative is zero; real division by
zero is zero here as well, so the quotient is taken directly.  The early
`break` (lines 124-125) fires before the bracket is touched. -/
def ppfStep (F : ℝ → ℝ) (eps xi : ℝ) (s : SolverState) : SolverState × Bool :=
  let fq0 := F s.q
  let dfq := (F (s.q + eps) - fq0) / eps
  let fq := fq0 - xi
  if |fq| ≤ eps then (s, true)
  else
    let flo := if fq ≤ 0 then fq else s.flo
    let lo := if fq ≤ 0 then s.q else s.lo
    let fup := if 0 ≤ fq then fq else s.fup
    let up := if 0 ≤ fq then s.q else s.up
    let qdq := s.q - fq / dfq
    (⟨lo, up, flo, fup, if qdq < up ∧ lo < qdq then qdq else (up + lo) / 2⟩, false)

/-- `for iteration in range(1, 10)` (line 117) with the early `break`:
at most the given fuel many iterations run.  Returns the final state and
the number of iterations that executed. -/
def ppfLoop (F : ℝ → ℝ) (eps xi : ℝ) : ℕ → SolverState → SolverState × ℕ
  | 0, s => (s, 0)
  | n + 1, s =>
    match ppfStep F eps xi s with
    | (s1, true) => (s1, 1)
    | (s1, false) =>
      let r := ppfLoop F eps xi n s1
      (r.1, r.2 + 1)

/-- `Archimedia._ppf` (lines 107-143): each coordinate beyond the first is
solved in turn against the already-resolved ones (`x[i] = q[i]` feeds the
later iterations), with initial state
`lo, up = 0, 1`, `flo, fup = -q[i], 1-q[i]`, `q[i] = x[i]` and fuel 9
(`range(1, 10)`). -/
def Archimedia.ppfGo (g : ArchGen) (th eps : ℝ) : List ℝ → List ℝ → List ℝ
  | acc, [] => acc
  | acc, xi :: rest =>
    Archimedia.ppfGo g th eps
      (acc ++ [(ppfLoop (fun t => Archimedia.diff g th eps (acc ++ [t])) eps xi 9
        ⟨0, 1, -xi, 1 - xi, xi⟩).1.q]) rest

/-- `Archimedia._ppf` on a full coordinate vector: `x[0]` is untouched. -/
def Archimedia.ppf (g : ArchGen) (th eps : ℝ) : List ℝ → List ℝ
  | [] => []
  | x0 :: rest => Archimedia.ppfGo g th eps [x0] rest

/-- `gumbel.gen` and `gumbel.igen` (lines 202-205), embedded with real
powers: `(-np.log(x))**th` and `np.e**(-x**th)`. -/
def gumbelGen : ArchGen :=
  ⟨fun x th => (-Real.log x) ^ th, fun x th => Real.exp (-(x ^ th))⟩

/-- `clayton.gen` and `clayton.igen` (lines 240-243):
`(x**-th-1)/th` and `(1.+th*x)**(-1./th)`. -/
def claytonGen : ArchGen :=
  ⟨fun x th => (x ^ (-th) - 1) / th, fun x th => (1 + th * x) ^ (-1 / th)⟩

/-- `ali_mikhail_haq.gen` and `.igen` (lines 256-259). -/
def amhGen : ArchGen :=
  ⟨fun x th => Real.log ((1 - th * (1 - x)) / x), fun x th => (1 - th) / (Real.exp x - th)⟩

/-- `frank.gen` and `.igen` (lines 276-279). -/
def frankGen : ArchGen :=
  ⟨fun x th => -Real.log ((Real.exp (-th * x) - 1) / (Real.exp (-th) - 1)),
   fun q th => -Real.log (1 + Real.exp (-q) * (Real.exp (-th) - 1)) / th⟩

/-- `joe.gen` and `.igen` (lines 294-298). -/
def joeGen : ArchGen :=
  ⟨fun x th => -Real.log (1 - (1 - x) ^ th), fun q th => 1 - (1 - Real.exp (-q)) ^ (1 / th)⟩

/-- The parameters a family constructor stores through `Dist.__init__`:
dimension `N`, shape `th`, step `eps`. -/
structure ArchParams where
  N : ℕ
  th : ℝ
  eps : ℝ

/-- `gumbel.__init__` (lines 199-201): converts theta to float and stores
the parameters.  It contains no domain assertion, so construction always
succeeds. -/
def gumbel.init (N : ℕ) (theta eps : ℝ) : Option ArchParams := some ⟨N, theta, eps⟩

/-- `clayton.__init__` (lines 238-239): stores the parameters with no
domain assertion. -/
def clayton.init (N : ℕ) (theta eps : ℝ) : Option ArchParams := some ⟨N, theta, eps⟩

/-- `ali_mikhail_haq.__init__` (lines 252-255): `assert -1<=theta<1`; a
failing assert is modelled as `none`. -/
def ali_mikhail_haq.init (N : ℕ) (theta eps : ℝ) : Option ArchParams :=
  if -1 ≤ theta ∧ theta < 1 then some ⟨N, theta, eps⟩ else none

/-- `frank.__init__` (lines 270-274): `assert theta!=0`. -/
def frank.init (N : ℕ) (theta eps : ℝ) : Option ArchParams :=
  if theta ≠ 0 then some ⟨N, theta, eps⟩ else none

/-- `joe.__init__` (lines 288-292): `assert theta>=1`. -/
def joe.init (N : ℕ) (theta eps : ℝ) : Option ArchParams :=
  if 1 ≤ theta then some ⟨N, theta, eps⟩ else none

/-- Modelled from the spec: `Copula.__init__` (lines 74-81) forwards both
operands to `Dist.__init__` in chaospy/dist/backend.py, which is not under
src/.  Spec section 6 states that the wrapper construction requires
`len(transform) == len(base distribution)`; that missing backend check is
modelled here from the spec wording, over the two lengths. -/
def Copula.init (distLen transLen : ℕ) : Option (ℕ × ℕ) :=
  if transLen = distLen then some (distLen, transLen) else none

/-- The pair stored by `nataf.__init__` (lines 307-320).  The permutation
conjugated Cholesky factor is produced by external primitives
(`np.linalg.cholesky`, spec section 1 collaborators), so the instance is
modelled over the resulting matrix `C`; `Ci = np.linalg.inv(C)` is matrix
inversion (line 319). -/
structure NatafInst (n : ℕ) where
  C : Matrix (Fin n) (Fin n) ℝ
  Ci : Matrix (Fin n) (Fin n) ℝ

/-- `nataf.__init__` storing `C` and `Ci = np.linalg.inv(C)`. -/
def nataf.init {n : ℕ} (C : Matrix (Fin n) (Fin n) ℝ) : NatafInst n := ⟨C, C⁻¹⟩

/-- `nataf._cdf` (lines 322-324): `ndtr(np.dot(Ci, ndtri(x)))` with the
scalar normal CDF `ndtr` and quantile `ndtri` as black-box primitives
applied componentwise. -/
def nataf.cdf {n : ℕ} (inst : NatafInst n) (ndtr ndtri : ℝ → ℝ) (x : Fin n → ℝ) : Fin n → ℝ :=
  fun i => ndtr (inst.Ci.mulVec (fun j => ndtri (x j)) i)

/-- `nataf._ppf` (lines 326-328): `ndtr(np.dot(C, ndtri(q)))`. -/
def nataf.ppf {n : ℕ} (inst : NatafInst n) (ndtr ndtri : ℝ → ℝ) (q : Fin n → ℝ) : Fin n → ℝ :=
  fun i => ndtr (inst.C.mulVec (fun j => ndtri (q j)) i)

/-- Modelled from the claim wording of C3 for comparison with the source
stencil: a central-difference stencil in which every one of the first `k`
coordinates is perturbed by plus or minus `eps` (never left in place),
accumulated with the alternating sign, the last coordinate left at `x[-1]`
for the numerator and replaced by 1 for the denominator. -/
def diffCentralNum (g : ArchGen) (th eps : ℝ) (x : List ℝ) : ℝ :=
  ((bitLists (x.length - 1)).map (fun I =>
    (-1 : ℝ) ^ popcount I *
      fooSum g th (((x.take (x.length - 1)).zipWith
        (fun t b => t + (if b then -eps else eps)) I) ++ [x.getD (x.length - 1) 0]))).sum

/-- Denominator of the claim-worded central stencil: last coordinate 1. -/
def diffCentralDen (g : ArchGen) (th eps : ℝ) (x : List ℝ) : ℝ :=
  ((bitLists (x.length - 1)).map (fun I =>
    (-1 : ℝ) ^ popcount I *
      fooSum g th (((x.take (x.length - 1)).zipWith
        (fun t b => t + (if b then -eps else eps)) I) ++ [1]))).sum

/-- The claim-worded central-difference Rosenblatt evaluator. -/
def diffCentral (g : ArchGen) (th eps : ℝ) (x : List ℝ) : ℝ :=
  diffCentralNum g th eps x / diffCentralDen g th eps x

/-- Modelled from the claim wording of C8 for comparison with the source
density: coordinate 0 is 1 and coordinate `i ≥ 1` is the absolute value of
the difference of Diff at `x_i + sign*eps` and at `x_i - sign*eps`,
divided by `eps`. -/
def pdfCentral (g : ArchGen) (th eps : ℝ) (x : List ℝ) : List ℝ :=
  (List.range x.length).map (fun i =>
    if i = 0 then 1
    else |(Archimedia.diff g th eps (x.take i ++ [x.getD i 0 + eps * npSign (x.getD i 0)]) -
           Archimedia.diff g th eps (x.take i ++ [x.getD i 0 - eps * npSign (x.getD i 0)])) / eps|)

/-! Helper lemmas about lists, shared by several claim proofs. -/

lemma getD_set_self : ∀ (l : List ℝ) (i : ℕ) (v : ℝ), i < l.length →
    (l.set i v).getD i 0 = v := by
  intro l
  induction l with
  | nil => intro i v h; simp at h
  | cons a t ih =>
    intro i v h
    cases i with
    | zero => simp
    | succ j =>
      simp only [List.set, List.getD, List.get?]
      exact ih j v (by simpa using Nat.lt_of_succ_lt_succ h)

lemma getD_set_ne : ∀ (l : List ℝ) (i j : ℕ) (v : ℝ), j ≠ i →
    (l.set i v).getD j 0 = l.getD j 0 := by
  intro l
  induction l with
  | nil => intro i j v h; simp
  | cons a t ih =>
    intro i j v h
    cases i with
    | zero =>
      cases j with
      | zero => exact absurd rfl h
      | succ k => simp
    | succ m =>
      cases j with
      | zero => simp
      | succ k =>
        simp only [List.set, List.getD, List.get?]
        exact ih m k v (fun hc => h (by rw [hc]))

lemma set_getD_self : ∀ (l : List ℝ) (i : ℕ), l.set i (l.getD i 0) = l := by
  intro l
  induction l with
  | nil => intro i; simp
  | cons a t ih =>
    intro i
    cases i with
    | zero => simp
    | succ j =>
      have h1 : (a :: t).getD (j + 1) 0 = t.getD j 0 := rfl
      rw [h1]
      show a :: t.set j (t.getD j 0) = a :: t
      rw [ih j]

lemma take_set_succ : ∀ (l : List ℝ) (i : ℕ) (v : ℝ), i < l.length →
    (l.set i v).take (i + 1) = l.take i ++ [v] := by
  intro l
  induction l with
  | nil => intro i v h; simp at h
  | cons a t ih =>
    intro i v h
    cases i with
    | zero => simp
    | succ j =>
      simp only [List.set, List.take, List.cons_append]
      rw [ih j v (by simpa using Nat.lt_of_succ_lt_succ h)]

lemma take_succ_getD : ∀ (l : List ℝ) (i : ℕ), i < l.length →
    l.take (i + 1) = l.take i ++ [l.getD i 0] := by
  intro l
  induction l with
  | nil => intro i h; simp at h
  | cons a t ih =>
    intro i h
    cases i with
    | zero => simp
    | succ j =>
      have h1 : (a :: t).getD (j + 1) 0 = t.getD j 0 := rfl
      rw [h1]
      show a :: t.take (j + 1) = a :: (t.take j ++ [t.getD j 0])
      rw [ih j (by simpa using Nat.lt_of_succ_lt_succ h)]

lemma getD_map_npSign : ∀ (l : List ℝ) (i : ℕ), i < l.length →
    (l.map npSign).getD i 0 = npSign (l.getD i 0) := by
  intro l
  induction l with
  | nil => intro i h; simp at h
  | cons a t ih =>
    intro i h
    cases i with
    | zero => simp
    | succ j =>
      simp only [List.map, List.getD, List.get?]
      exact ih j (by simpa using Nat.lt_of_succ_lt_succ h)

lemma getD_map_abs : ∀ (l : List ℝ) (i : ℕ), i < l.length →
    (l.map (fun t => |t|)).getD i 0 = |l.getD i 0| := by
  intro l
  induction l with
  | nil => intro i h; simp at h
  | cons a t ih =>
    intro i h
    cases i with
    | zero => simp
    | succ j =>
      simp only [List.map, List.getD, List.get?]
      exact ih j (by simpa using Nat.lt_of_succ_lt_succ h)

lemma getD_replicate : ∀ (n i : ℕ), i < n → (List.replicate n (1:ℝ)).getD i 0 = 1 := by
  intro n
  induction n with
  | zero => intro i h; simp at h
  | succ m ih =>
    intro i h
    cases i with
    | zero => simp [List.replicate]
    | succ j =>
      simp only [List.replicate, List.getD, List.get?]
      exact ih j (Nat.lt_of_succ_lt_succ h)

/-! Helper lemmas about the Clayton generator at th = 1, where the power
functions collapse to rational expressions. -/

lemma claytonGen_gen_one (x : ℝ) : claytonGen.gen x 1 = x⁻¹ - 1 := by
  simp [claytonGen, Real.rpow_neg_one]

lemma claytonGen_igen_one (q : ℝ) : claytonGen.igen q 1 = (1 + q)⁻¹ := by
  simp [claytonGen]
  norm_num [Real.rpow_neg_one]

/-! Helper lemmas about the ppf solver loop. -/

lemma ppfLoop_count_le (F : ℝ → ℝ) (eps xi : ℝ) :
    ∀ (n : ℕ) (s : SolverState), (ppfLoop F eps xi n s).2 ≤ n := by
  intro n
  induction n with
  | zero => intro s; simp [ppfLoop]
  | succ n ih =>
    intro s
    simp only [ppfLoop]
    rcases h : ppfStep F eps xi s with ⟨s1, b⟩
    cases b
    · simpa using Nat.succ_le_succ (ih s1)
    · simp

lemma ppfLoop_early_stop (F : ℝ → ℝ) (eps xi : ℝ) (n : ℕ) (s : SolverState)
    (h : |F s.q - xi| ≤ eps) : ppfLoop F eps xi (n + 1) s = (s, 1) := by
  have hstep : ppfStep F eps xi s = (s, true) := by
    simp only [ppfStep]
    rw [if_pos h]
  simp only [ppfLoop, hstep]

lemma ppfStep_bracket (F : ℝ → ℝ) (eps xi : ℝ) (s : SolverState)
    (h : s.lo ≤ s.q ∧ s.q ≤ s.up) :
    (ppfStep F eps xi s).1.lo ≤ (ppfStep F eps xi s).1.q ∧
    (ppfStep F eps xi s).1.q ≤ (ppfStep F eps xi s).1.up := by
  simp only [ppfStep]
  by_cases hb : |F s.q - xi| ≤ eps
  · rw [if_pos hb]; exact h
  · rw [if_neg hb]
    dsimp only
    set fq := F s.q - xi with hfq
    set qdq := s.q - fq / ((F (s.q + eps) - F s.q) / eps) with hqdq
    rcases lt_trichotomy fq 0 with h1 | h1 | h1
    · rw [if_pos (le_of_lt h1), if_neg (not_le.mpr h1)]
      by_cases hin : qdq < s.up ∧ s.q < qdq
      · rw [if_pos hin]; exact ⟨le_of_lt hin.2, le_of_lt hin.1⟩
      · rw [if_neg hin]
        constructor <;> linarith [h.2]
    · rw [if_pos (le_of_eq h1), if_pos h1.symm.le]
      have hq : qdq = s.q := by rw [hqdq, h1]; ring
      by_cases hin : qdq < s.q ∧ s.q < qdq
      · exact absurd (lt_trans hin.1 hin.2) (lt_irrefl qdq)
      · rw [if_neg hin]
        constructor <;> linarith
    · rw [if_neg (not_le.mpr h1), if_pos (le_of_lt h1)]
      by_cases hin : qdq < s.q ∧ s.lo < qdq
      · rw [if_pos hin]; exact ⟨le_of_lt hin.2, le_of_lt hin.1⟩
      · rw [if_neg hin]
        constructor <;> linarith [h.1]

lemma ppfLoop_bracket (F : ℝ → ℝ) (eps xi : ℝ) :
    ∀ (n : ℕ) (s : SolverState), s.lo ≤ s.q ∧ s.q ≤ s.up →
    (ppfLoop F eps xi n s).1.lo ≤ (ppfLoop F eps xi n s).1.q ∧
    (ppfLoop F eps xi n s).1.q ≤ (ppfLoop F eps xi n s).1.up := by
  intro n
  induction n with
  | zero => intro s hs; simpa [ppfLoop] using hs
  | succ n ih =>
    intro s hs
    have hstep := ppfStep_bracket F eps xi s hs
    simp only [ppfLoop]
    rcases h : ppfStep F eps xi s with ⟨s1, b⟩
    rw [h] at hstep
    cases b
    · simpa using ih s1 hstep
    · simpa using hstep

/-! Helper lemmas about the pdf loop. -/

lemma pdfStepAt_spec (g : ArchGen) (th eps : ℝ) (x out : List ℝ) (i : ℕ) (hi : i < x.length) :
    pdfStepAt g th eps (npSign (x.getD i 0)) i (x, out) =
      (x, out.set i ((Archimedia.diff g th eps
          (x.take i ++ [x.getD i 0 + eps * npSign (x.getD i 0)]) -
        Archimedia.diff g th eps (x.take i ++ [x.getD i 0])) / eps)) := by
  simp only [pdfStepAt]
  have hA : (x.set i (x.getD i 0 + eps * npSign (x.getD i 0))).getD i 0 =
      x.getD i 0 + eps * npSign (x.getD i 0) := getD_set_self x i _ hi
  rw [hA]
  have hB : (x.set i (x.getD i 0 + eps * npSign (x.getD i 0))).set i
      (x.getD i 0 + eps * npSign (x.getD i 0) - eps * npSign (x.getD i 0)) = x := by
    rw [List.set_set]
    have hv : x.getD i 0 + eps * npSign (x.getD i 0) - eps * npSign (x.getD i 0) =
        x.getD i 0 := by ring
    rw [hv]
    exact set_getD_self x i
  rw [hB]
  rw [take_set_succ x i _ hi]
  rw [take_succ_getD x i hi]

lemma pdfSteps_spec (g : ArchGen) (th eps : ℝ) (x : List ℝ) :
    ∀ (is : List ℕ) (out : List ℝ), out.length = x.length → (∀ j ∈ is, j < x.length) →
    (pdfSteps g th eps (x.map npSign) is (x, out)).1 = x ∧
    (pdfSteps g th eps (x.map npSign) is (x, out)).2.length = x.length ∧
    ∀ k : ℕ, (pdfSteps g th eps (x.map npSign) is (x, out)).2.getD k 0 =
      if k ∈ is then
        (Archimedia.diff g th eps
          (x.take k ++ [x.getD k 0 + eps * npSign (x.getD k 0)]) -
         Archimedia.diff g th eps (x.take k ++ [x.getD k 0])) / eps
      else out.getD k 0 := by
  intro is
  induction is with
  | nil =>
    intro out hlen hmem
    refine ⟨rfl, hlen, ?_⟩
    intro k
    simp [pdfSteps]
  | cons i rest ih =>
    intro out hlen hmem
    have hi : i < x.length := hmem i (by simp)
    have hsign : (x.map npSign).getD i 0 = npSign (x.getD i 0) := getD_map_npSign x i hi
    simp only [pdfSteps, hsign, pdfStepAt_spec g th eps x out i hi]
    have hlen2 : (out.set i ((Archimedia.diff g th eps
        (x.take i ++ [x.getD i 0 + eps * npSign (x.getD i 0)]) -
        Archimedia.diff g th eps (x.take i ++ [x.getD i 0])) / eps)).length = x.length := by
      simpa using hlen
    obtain ⟨e1, e2, e3⟩ := ih _ hlen2 (fun j hj => hmem j (by simp [hj]))
    refine ⟨e1, e2, ?_⟩
    intro k
    rw [e3 k]
    by_cases hk : k ∈ rest
    · rw [if_pos hk, if_pos (by simp [hk])]
    · rw [if_neg hk]
      by_cases hki : k = i
      · subst hki
        rw [if_pos (by simp)]
        exact getD_set_self out k _ (hlen ▸ hi)
      · rw [if_neg (by simp [hki, hk])]
        exact getD_set_ne out i k _ hki

/-! Claim theorems. -/

/-- Claim C1: the claim states that for every family and every coordinate
vector with `x[i] == 1` the forward transform returns exactly 1 at
coordinate `i`, the boundary override taking precedence over the
finite-difference evaluation.  In the code the override on line 150 is a
dead store, overwritten by the Diff assignment on line 151, so at the
failing input (clayton backend, theta 1, eps 0, x = [1/4, 1]) coordinate 1
is the unguarded quotient 0/0 (nan in numpy, the junk value 0 in the
real-valued embedding) and not 1. -/
theorem cdf_boundary_coordinate_not_one :
    (Archimedia.cdf claytonGen 1 0 [1/4, 1]).getD 1 0 = 0 ∧
    (Archimedia.cdf claytonGen 1 0 [1/4, 1]).getD 1 0 ≠ 1 := by
  constructor <;>
  · simp [Archimedia.cdf, Archimedia.diff, diffNum, diffDen, bitLists, popcount, perturb,
      setLast, fooSum, npSign]

/-- Claim C2, counterexample: a gumbel transform with theta 1/2 < 1 and a
clayton transform with theta -1 ≤ 0 both construct successfully, because
neither constructor contains a domain assertion; the claim that every one
of the five families rejects an out-of-domain theta at construction is
therefore false. -/
theorem gumbel_clayton_construct_out_of_domain :
    ((1:ℝ)/2 < 1 ∧ gumbel.init 2 (1/2) (1/1000000) ≠ none) ∧
    ((-1:ℝ) ≤ 0 ∧ clayton.init 2 (-1) (1/1000000) ≠ none) := by
  refine ⟨⟨by norm_num, ?_⟩, ⟨by norm_num, ?_⟩⟩ <;> simp [gumbel.init, clayton.init]

/-- Claim C2, amended: ali_mikhail_haq, frank and joe validate theta at
construction (assert statements, modelled as `none` on failure) with the
domains `-1 ≤ theta < 1`, `theta ≠ 0` and `theta ≥ 1`; gumbel and clayton
perform no validation and accept every theta.  In particular Frank with
theta 0, Ali-Mikhail-Haq with theta 1 and Joe with theta 1/2 all fail. -/
theorem family_theta_domain_validation (N : ℕ) (th eps : ℝ) :
    (ali_mikhail_haq.init N th eps = none ↔ ¬(-1 ≤ th ∧ th < 1)) ∧
    (frank.init N th eps = none ↔ th = 0) ∧
    (joe.init N th eps = none ↔ th < 1) ∧
    gumbel.init N th eps ≠ none ∧
    clayton.init N th eps ≠ none ∧
    frank.init N 0 eps = none ∧
    ali_mikhail_haq.init N 1 eps = none ∧
    joe.init N (1/2) eps = none := by
  refine ⟨?_, ?_, ?_, ?_, ?_, ?_, ?_, ?_⟩
  · by_cases hc : -1 ≤ th ∧ th < 1 <;> simp [ali_mikhail_haq.init, hc]
  · by_cases hc : th = 0 <;> simp [frank.init, hc]
  · by_cases hc : 1 ≤ th
    · simp [joe.init, hc, not_lt.mpr hc]
    · simp [joe.init, hc, lt_of_not_le hc]
  · simp [gumbel.init]
  · simp [clayton.init]
  · simp [frank.init]
  · norm_num [ali_mikhail_haq.init]
  · norm_num [joe.init]

/-- Claim C3, counterexample: at the clayton backend with theta 1,
eps 1/8 and prefix [1/4, 1/2], the source stencil (which leaves a
coordinate in place or moves it one-sidedly by `sign*eps`) gives 32/55,
while the claimed central-difference stencil (every coordinate moved by
plus or minus eps) gives 64/99; the claimed description of the stencil is
therefore false. -/
theorem diff_stencil_not_central :
    Archimedia.diff claytonGen 1 (1/8) [1/4, 1/2] ≠ diffCentral claytonGen 1 (1/8) [1/4, 1/2] := by
  have h1 : Archimedia.diff claytonGen 1 (1/8) [1/4, 1/2] = 32/55 := by
    simp [Archimedia.diff, diffNum, diffDen, bitLists, popcount, perturb, setLast, fooSum,
      npSign, claytonGen_gen_one, claytonGen_igen_one]
    norm_num
  have h2 : diffCentral claytonGen 1 (1/8) [1/4, 1/2] = 64/99 := by
    simp [diffCentral, diffCentralNum, diffCentralDen, bitLists, popcount, fooSum,
      claytonGen_gen_one, claytonGen_igen_one]
    norm_num
  rw [h1, h2]
  norm_num

/-- Claim C3, amended: the stencil of `Archimedia._diff` enumerates all
2^k on/off combinations of the first k coordinates, perturbs the selected
coordinates one-sidedly by `npSign x_j * eps` (toward the interior: plus
eps when `x_j ≤ 1/2`, minus eps otherwise), leaves unselected coordinates
in place, accumulates terms with sign `(-1)^popcount`, and returns the
ratio of the stencil with the last coordinate kept (numerator) over the
stencil with the last coordinate replaced by 1 (denominator); shown here
in full for dimensions 2 and 3 with an arbitrary generator pair. -/
theorem diff_one_sided_expansion (g : ArchGen) (th eps x0 x1 x2 : ℝ) :
    Archimedia.diff g th eps [x0, x1] =
      (fooSum g th [x0, x1] - fooSum g th [x0 + npSign x0 * eps, x1]) /
      (fooSum g th [x0, 1] - fooSum g th [x0 + npSign x0 * eps, 1]) ∧
    Archimedia.diff g th eps [x0, x1, x2] =
      (fooSum g th [x0, x1, x2] - fooSum g th [x0 + npSign x0 * eps, x1, x2]
        - fooSum g th [x0, x1 + npSign x1 * eps, x2]
        + fooSum g th [x0 + npSign x0 * eps, x1 + npSign x1 * eps, x2]) /
      (fooSum g th [x0, x1, 1] - fooSum g th [x0 + npSign x0 * eps, x1, 1]
        - fooSum g th [x0, x1 + npSign x1 * eps, 1]
        + fooSum g th [x0 + npSign x0 * eps, x1 + npSign x1 * eps, 1]) := by
  constructor <;>
  · simp only [Archimedia.diff, diffNum, diffDen, bitLists, popcount, perturb, setLast,
      List.map, List.zipWith, List.length, List.set, List.sum_cons, List.sum_nil,
      List.cons_append, List.nil_append, List.map_cons, List.map_nil, List.map_append]
    norm_num
    ring_nf

/-- Claim C4, counterexample: at the clayton backend with theta 1, eps 0
and prefix [1/4, 1/2] the denominator stencil of `Archimedia._diff` is
exactly zero, yet the function still returns the unguarded quotient (0 in
the real-valued embedding, nan after a numpy warning in the source): the
zero denominator is not flagged, the division simply happens. -/
theorem diff_zero_denominator_divides :
    diffDen claytonGen 1 0 [1/4, 1/2] = 0 ∧ Archimedia.diff claytonGen 1 0 [1/4, 1/2] = 0 := by
  constructor
  · simp [diffDen, bitLists, popcount, perturb, setLast, fooSum, npSign]
  · simp [Archimedia.diff, diffNum, diffDen, bitLists, popcount, perturb, setLast, fooSum,
      npSign]

/-- Claim C4, amended: a zero denominator in the finite-difference ratio
of `Archimedia._diff` is not flagged; the quotient is taken
unconditionally, and with a zero denominator the result is the junk value
of division by zero (0 in the real-valued embedding; numpy propagates
inf or nan).  The sentinel recovery the spec describes exists only for the
zero one-sided derivative inside `Archimedia._ppf` (line 121). -/
theorem diff_zero_denominator_junk (g : ArchGen) (th eps : ℝ) (x : List ℝ)
    (h : diffDen g th eps x = 0) : Archimedia.diff g th eps x = 0 := by
  rw [Archimedia.diff, h, div_zero]

/-- Witness for C4 at the concrete degenerate input clayton, theta 1,
eps 0, prefix [1/8, 1/2]. -/
theorem diff_zero_denominator_junk_witness :
    diffDen claytonGen 1 0 [1/8, 1/2] = 0 ∧ Archimedia.diff claytonGen 1 0 [1/8, 1/2] = 0 := by
  have h : diffDen claytonGen 1 0 [1/8, 1/2] = 0 := by
    simp [diffDen, bitLists, popcount, perturb, setLast, fooSum, npSign]
  exact ⟨h, diff_zero_denominator_junk claytonGen 1 0 [1/8, 1/2] h⟩

/-- Claim C5: the per-coordinate solver of `Archimedia._ppf` runs at most
the fixed budget of iterations (the loop `range(1, 10)` executes at most
9, hence at most the claimed 10); it stops at the first iteration whose
residual satisfies `|f| ≤ eps`, returning the state untouched; and the
value it returns is bracket-consistent, `lo ≤ q ≤ up` in the final state,
whether or not any iteration converged. -/
theorem ppf_iteration_budget_bracket (g : ArchGen) (th eps : ℝ) (acc : List ℝ) (xi : ℝ)
    (h0 : 0 ≤ xi) (h1 : xi ≤ 1) :
    (ppfLoop (fun t => Archimedia.diff g th eps (acc ++ [t])) eps xi 9
        ⟨0, 1, -xi, 1 - xi, xi⟩).2 ≤ 10 ∧
    (∀ (n : ℕ) (s : SolverState),
      |Archimedia.diff g th eps (acc ++ [s.q]) - xi| ≤ eps →
      ppfLoop (fun t => Archimedia.diff g th eps (acc ++ [t])) eps xi (n + 1) s = (s, 1)) ∧
    ((ppfLoop (fun t => Archimedia.diff g th eps (acc ++ [t])) eps xi 9
        ⟨0, 1, -xi, 1 - xi, xi⟩).1.lo ≤
      (ppfLoop (fun t => Archimedia.diff g th eps (acc ++ [t])) eps xi 9
        ⟨0, 1, -xi, 1 - xi, xi⟩).1.q ∧
     (ppfLoop (fun t => Archimedia.diff g th eps (acc ++ [t])) eps xi 9
        ⟨0, 1, -xi, 1 - xi, xi⟩).1.q ≤
      (ppfLoop (fun t => Archimedia.diff g th eps (acc ++ [t])) eps xi 9
        ⟨0, 1, -xi, 1 - xi, xi⟩).1.up) := by
  refine ⟨le_trans (ppfLoop_count_le _ _ _ 9 _) (by norm_num), ?_, ?_⟩
  · intro n s hs
    exact ppfLoop_early_stop _ eps xi n s hs
  · exact ppfLoop_bracket _ eps xi 9 ⟨0, 1, -xi, 1 - xi, xi⟩ ⟨h0, h1⟩

/-- Witness for C5 at clayton, theta 1, eps 1, resolved first coordinate
1/2 and target 1/2. -/
theorem ppf_iteration_budget_bracket_witness :
    (0:ℝ) ≤ 1/2 ∧ (1:ℝ)/2 ≤ 1 ∧
    ((ppfLoop (fun t => Archimedia.diff claytonGen 1 1 ([1/2] ++ [t])) 1 (1/2) 9
        ⟨0, 1, -(1/2), 1 - 1/2, 1/2⟩).2 ≤ 10 ∧
     (∀ (n : ℕ) (s : SolverState),
       |Archimedia.diff claytonGen 1 1 ([1/2] ++ [s.q]) - 1/2| ≤ 1 →
       ppfLoop (fun t => Archimedia.diff claytonGen 1 1 ([1/2] ++ [t])) 1 (1/2) (n + 1) s =
         (s, 1)) ∧
     ((ppfLoop (fun t => Archimedia.diff claytonGen 1 1 ([1/2] ++ [t])) 1 (1/2) 9
        ⟨0, 1, -(1/2), 1 - 1/2, 1/2⟩).1.lo ≤
      (ppfLoop (fun t => Archimedia.diff claytonGen 1 1 ([1/2] ++ [t])) 1 (1/2) 9
        ⟨0, 1, -(1/2), 1 - 1/2, 1/2⟩).1.q ∧
      (ppfLoop (fun t => Archimedia.diff claytonGen 1 1 ([1/2] ++ [t])) 1 (1/2) 9
        ⟨0, 1, -(1/2), 1 - 1/2, 1/2⟩).1.q ≤
      (ppfLoop (fun t => Archimedia.diff claytonGen 1 1 ([1/2] ++ [t])) 1 (1/2) 9
        ⟨0, 1, -(1/2), 1 - 1/2, 1/2⟩).1.up)) :=
  ⟨by norm_num, by norm_num,
    ppf_iteration_budget_bracket claytonGen 1 1 [1/2] (1/2) (by norm_num) (by norm_num)⟩

/-- Claim C6: one non-breaking iteration of the `Archimedia._ppf` solver,
for a batch entry with residual above tolerance, behaves exactly as
claimed: the bracket is tightened by residual sign (`f ≤ 0` moves `lo` to
the current iterate, `f ≥ 0` moves `up`, and the recorded end residuals
move with them), the Newton step `q - f/df` is accepted only when it lies
strictly inside the updated bracket and the midpoint is taken otherwise;
and when the raw one-sided derivative is zero (the `np.inf` sentinel,
which makes `f/df` vanish exactly as real division by zero does here) the
next iterate is the bracket midpoint, pure bisection. -/
theorem ppf_step_newton_bisection (F : ℝ → ℝ) (eps xi : ℝ) (s : SolverState)
    (h : eps < |F s.q - xi|) :
    ppfStep F eps xi s =
      (⟨if F s.q - xi ≤ 0 then s.q else s.lo,
        if 0 ≤ F s.q - xi then s.q else s.up,
        if F s.q - xi ≤ 0 then F s.q - xi else s.flo,
        if 0 ≤ F s.q - xi then F s.q - xi else s.fup,
        if (s.q - (F s.q - xi) / ((F (s.q + eps) - F s.q) / eps) <
              (if 0 ≤ F s.q - xi then s.q else s.up)) ∧
           ((if F s.q - xi ≤ 0 then s.q else s.lo) <
              s.q - (F s.q - xi) / ((F (s.q + eps) - F s.q) / eps))
        then s.q - (F s.q - xi) / ((F (s.q + eps) - F s.q) / eps)
        else ((if 0 ≤ F s.q - xi then s.q else s.up) +
              (if F s.q - xi ≤ 0 then s.q else s.lo)) / 2⟩, false) ∧
    ((F (s.q + eps) - F s.q) / eps = 0 →
      (ppfStep F eps xi s).1.q =
        ((if 0 ≤ F s.q - xi then s.q else s.up) +
         (if F s.q - xi ≤ 0 then s.q else s.lo)) / 2) := by
  have hb : ¬ |F s.q - xi| ≤ eps := not_le.mpr h
  constructor
  · simp only [ppfStep]
    rw [if_neg hb]
  · intro hd
    simp only [ppfStep]
    rw [if_neg hb]
    dsimp only
    rw [hd]
    have hq : s.q - (F s.q - xi) / 0 = s.q := by
      rw [div_zero, sub_zero]
    rw [hq]
    rcases le_or_lt (F s.q - xi) 0 with h1 | h1
    · rw [if_pos h1]
      rw [if_neg (fun hc => lt_irrefl s.q hc.2)]
    · rw [if_neg (not_le.mpr h1), if_pos (le_of_lt h1)]
      rw [if_neg (fun hc => lt_irrefl s.q hc.1)]

/-- Witness for C6 at the identity residual map, eps 1/10, target 0 and
state with bracket [0, 1] and iterate 1/2. -/
theorem ppf_step_newton_bisection_witness :
    ((1:ℝ)/10 < |(fun t : ℝ => t) ((⟨0, 1, 0, 1, 1/2⟩ : SolverState)).q - 0|) ∧
    (ppfStep (fun t : ℝ => t) (1/10) 0 ⟨0, 1, 0, 1, 1/2⟩).2 = false := by
  have h : (1:ℝ)/10 < |(fun t : ℝ => t) ((⟨0, 1, 0, 1, 1/2⟩ : SolverState)).q - 0| := by
    show (1:ℝ)/10 < |(1:ℝ)/2 - 0|
    rw [sub_zero, abs_of_pos (by norm_num)]
    norm_num
  refine ⟨h, ?_⟩
  rw [(ppf_step_newton_bisection (fun t : ℝ => t) (1/10) 0 ⟨0, 1, 0, 1, 1/2⟩ h).1]

/-- Claim C8, counterexample: at clayton, theta 1, eps 1/8, x = [1/4, 1/4]
the source density at coordinate 1 is `|(Diff(x1 + eps) - Diff(x1))/eps|
= 2048/1547`, while the claimed formula `|(Diff(x1 + eps) -
Diff(x1 - eps))/eps|` gives 188416/70499; the second evaluation point of
the claim is wrong: the code restores `x[i]` before the second Diff call,
so it evaluates at `x_i`, not at `x_i - sign*eps`. -/
theorem pdf_not_central_difference :
    (Archimedia.pdf claytonGen 1 (1/8) [1/4, 1/4]).getD 1 0 ≠
    (pdfCentral claytonGen 1 (1/8) [1/4, 1/4]).getD 1 0 := by
  have h1 : (Archimedia.pdf claytonGen 1 (1/8) [1/4, 1/4]).getD 1 0 = 2048/1547 := by
    simp [Archimedia.pdf, pdfSteps, pdfStepAt, List.range', Archimedia.diff, diffNum,
      diffDen, bitLists, popcount, perturb, setLast, fooSum, npSign, claytonGen_gen_one,
      claytonGen_igen_one]
    norm_num [abs]
  have h2 : (pdfCentral claytonGen 1 (1/8) [1/4, 1/4]).getD 1 0 = 188416/70499 := by
    simp [pdfCentral, Archimedia.diff, diffNum, diffDen, bitLists, popcount, perturb,
      setLast, fooSum, npSign, claytonGen_gen_one, claytonGen_igen_one]
    norm_num [abs]
  rw [h1, h2]
  norm_num

/-- Claim C8, amended: `Archimedia._pdf` returns exactly 1 at coordinate
0, and at every coordinate `i ≥ 1` returns the absolute value of the
difference of Diff evaluated at `x_i + sign*eps` and at `x_i` itself (the
in-place shift of the coordinate is undone before the second evaluation),
divided by eps, where sign is +1 for `x_i ≤ 1/2` and -1 otherwise;
consequently every returned value is non-negative. -/
theorem pdf_one_sided_formula (g : ArchGen) (th eps : ℝ) (x : List ℝ) (i : ℕ)
    (hi : i < x.length) :
    (Archimedia.pdf g th eps x).getD i 0 =
      (if i = 0 then 1 else
        |(Archimedia.diff g th eps (x.take i ++ [x.getD i 0 + eps * npSign (x.getD i 0)]) -
          Archimedia.diff g th eps (x.take i ++ [x.getD i 0])) / eps|) ∧
    0 ≤ (Archimedia.pdf g th eps x).getD i 0 := by
  obtain ⟨e1, e2, e3⟩ := pdfSteps_spec g th eps x (List.range' 1 (x.length - 1))
      (List.replicate x.length 1) (by simp)
      (fun j hj => by rw [List.mem_range'_1] at hj; omega)
  have hpdf : Archimedia.pdf g th eps x =
      (pdfSteps g th eps (x.map npSign) (List.range' 1 (x.length - 1))
        (x, List.replicate x.length 1)).2.map (fun t => |t|) := rfl
  have hlen : i < (pdfSteps g th eps (x.map npSign) (List.range' 1 (x.length - 1))
      (x, List.replicate x.length 1)).2.length := by rw [e2]; exact hi
  have habs : (Archimedia.pdf g th eps x).getD i 0 =
      |(pdfSteps g th eps (x.map npSign) (List.range' 1 (x.length - 1))
        (x, List.replicate x.length 1)).2.getD i 0| := by
    rw [hpdf]; exact getD_map_abs _ i hlen
  rw [habs, e3 i]
  by_cases h0 : i = 0
  · subst h0
    rw [if_neg (by rw [List.mem_range'_1]; omega), if_pos rfl]
    rw [getD_replicate x.length 0 hi]
    constructor
    · exact abs_one
    · positivity
  · rw [if_pos (by rw [List.mem_range'_1]; omega), if_neg h0]
    exact ⟨rfl, abs_nonneg _⟩

/-- Witness for C8 at clayton, theta 1, eps 1/8, x = [1/2, 1/2] and
coordinate 1. -/
theorem pdf_one_sided_formula_witness :
    1 < ([(1:ℝ)/2, 1/2] : List ℝ).length ∧
    ((Archimedia.pdf claytonGen 1 (1/8) [1/2, 1/2]).getD 1 0 =
      (if 1 = 0 then 1 else
        |(Archimedia.diff claytonGen 1 (1/8)
            (([(1:ℝ)/2, 1/2] : List ℝ).take 1 ++
              [([(1:ℝ)/2, 1/2] : List ℝ).getD 1 0 +
                1/8 * npSign (([(1:ℝ)/2, 1/2] : List ℝ).getD 1 0)]) -
          Archimedia.diff claytonGen 1 (1/8)
            (([(1:ℝ)/2, 1/2] : List ℝ).take 1 ++
              [([(1:ℝ)/2, 1/2] : List ℝ).getD 1 0])) / (1/8)|) ∧
     0 ≤ (Archimedia.pdf claytonGen 1 (1/8) [1/2, 1/2]).getD 1 0) :=
  ⟨by simp, pdf_one_sided_formula claytonGen 1 (1/8) [1/2, 1/2] 1 (by simp)⟩

/-- Claim C9: constructing the generic `Copula` wrapper with incompatible
lengths between the base distribution and the transform fails at
construction time (the length requirement is modelled from the spec since
the backend `Dist.__init__` lies outside src/). -/
theorem copula_length_mismatch_fails (distLen transLen : ℕ) (h : transLen ≠ distLen) :
    Copula.init distLen transLen = none := by
  simp [Copula.init, h]

/-- Witness for C9 at base length 1 and transform length 2. -/
theorem copula_length_mismatch_fails_witness :
    (2:ℕ) ≠ 1 ∧ Copula.init 1 2 = none :=
  ⟨by decide, copula_length_mismatch_fails 1 2 (by decide)⟩

/-- Claim C10: for the nataf backend, with the normal CDF and quantile
primitives assumed exact mutual inverses and the stored factor invertible
(it is a Cholesky factor of a positive definite matrix in the source),
the stored matrices satisfy `C * Ci = 1`, and `_ppf` is the exact
functional inverse of `_cdf`: no iteration and no eps enters. -/
theorem nataf_ppf_inverse_of_cdf {n : ℕ} (C : Matrix (Fin n) (Fin n) ℝ)
    (hC : IsUnit C.det) (ndtr ndtri : ℝ → ℝ)
    (h1 : ∀ y, ndtri (ndtr y) = y) (h2 : ∀ y, ndtr (ndtri y) = y) (x : Fin n → ℝ) :
    (nataf.init C).C * (nataf.init C).Ci = 1 ∧
    nataf.ppf (nataf.init C) ndtr ndtri (nataf.cdf (nataf.init C) ndtr ndtri x) = x := by
  constructor
  · exact Matrix.mul_nonsing_inv C hC
  · funext i
    simp only [nataf.ppf, nataf.cdf, nataf.init, h1]
    rw [show (fun j => C⁻¹.mulVec (fun k => ndtri (x k)) j) =
        C⁻¹.mulVec (fun k => ndtri (x k)) from rfl]
    rw [Matrix.mulVec_mulVec, Matrix.mul_nonsing_inv C hC, Matrix.one_mulVec, h2]

/-- Witness for C10 at dimension 1 with the identity matrix and identity
primitives. -/
theorem nataf_ppf_inverse_of_cdf_witness :
    IsUnit (1 : Matrix (Fin 1) (Fin 1) ℝ).det ∧
    (∀ y : ℝ, id (id y) = y) ∧
    ((nataf.init (1 : Matrix (Fin 1) (Fin 1) ℝ)).C *
      (nataf.init (1 : Matrix (Fin 1) (Fin 1) ℝ)).Ci = 1 ∧
     nataf.ppf (nataf.init (1 : Matrix (Fin 1) (Fin 1) ℝ)) id id
       (nataf.cdf (nataf.init (1 : Matrix (Fin 1) (Fin 1) ℝ)) id id (fun _ => 1/2)) =
       (fun _ => 1/2)) :=
  ⟨by simp, fun y => rfl,
    nataf_ppf_inverse_of_cdf (1 : Matrix (Fin 1) (Fin 1) ℝ) (by simp) id id
      (fun y => rfl) (fun y => rfl) (fun _ => 1/2)⟩
